import Mathlib

/-
Shallow embedding of the Fibonacci heap in src/src/lib.rs and src/src/heap.rs,
with the element type `T` instantiated at `Int`.

Modelling conventions:
* the `slab::Slab` arena is a list of slots (occupied or vacant) plus the head
  of the free list, following the `slab` crate's documented behaviour
  (vacant slots store the next free slot; removal pushes the slot on the
  free list; insertion pops it or appends);
* a Rust `unwrap()` that can fail is an explicit `Option`/`PRes` failure
  (`none` / `.panic`); `unimplemented!()` is likewise a panic;
* the two recursive private helpers `mark_or_cut` and
  `merge_or_merge_same_degrees_tree` carry an explicit fuel argument; the
  `.spin` result marks fuel exhaustion and is proved unreachable for the
  fuel the operations pass (see `recursive_helpers_terminate`);
* the consolidation bucket table `HashMap<usize, usize>` is an association
  list with unique keys, and `values()` is modelled as insertion order (the
  Rust HashMap iteration order is unspecified; no theorem below depends on
  the order beyond this fixed choice).
-/

namespace FibHeap

/-- Rust struct `TreeNode<T>` of src/src/lib.rs with `T = Int`: parent slot,
element, marked flag, child slots, and the generation stamp `handle_id`. -/
structure TreeNode where
  parent : Option Nat
  element : Int
  marked : Bool
  children : List Nat
  handle_id : Nat
deriving DecidableEq

/-- One slot of the `slab::Slab` arena: occupied by a node, or vacant and
holding the next slot of the free list. -/
inductive Entry where
  | occupied : TreeNode → Entry
  | vacant : Nat → Entry
deriving DecidableEq

/-- Model of `slab::Slab<TreeNode<T>>`: the slots plus the free-list head
`next` (`next = entries.length` when no slot is free). -/
structure Slab where
  entries : List Entry
  next : Nat
deriving DecidableEq

/-- Rust `Slab::get`: `some` exactly on an occupied slot. -/
def Slab.get (s : Slab) (k : Nat) : Option TreeNode :=
  match s.entries[k]? with
  | some (.occupied n) => some n
  | _ => none

/-- Rust `Slab::insert`: take the free-list head; if it equals the length,
append a fresh slot, otherwise fill the vacant slot and advance the free
list. The last arm is unreachable for slabs built by the heap's own
operations (the free list always points at vacant slots); the `slab` crate
declares `unreachable!()` there. -/
def Slab.insert (s : Slab) (n : TreeNode) : Slab × Nat :=
  if s.next = s.entries.length then
    ({ entries := s.entries ++ [.occupied n], next := s.next + 1 }, s.next)
  else
    match s.entries[s.next]? with
    | some (.vacant nx) =>
        ({ entries := s.entries.set s.next (.occupied n), next := nx }, s.next)
    | _ => ({ entries := s.entries ++ [.occupied n], next := s.entries.length + 1 },
            s.entries.length)

/-- Rust `Slab::remove`: return the node and mark the slot vacant, pushing it
on the free list; `none` models the panic on a vacant slot. -/
def Slab.remove (s : Slab) (k : Nat) : Option (TreeNode × Slab) :=
  match s.entries[k]? with
  | some (.occupied n) =>
      some (n, { entries := s.entries.set k (.vacant s.next), next := k })
  | _ => none

/-- Rust `Slab::get_mut(k).unwrap()` followed by a field update. Every call
site in lib.rs reaches this only after a successful lookup of the same key in
the same state, so the vacant case (where Rust would panic) is a no-op here. -/
def Slab.modify (s : Slab) (k : Nat) (f : TreeNode → TreeNode) : Slab :=
  match s.entries[k]? with
  | some (.occupied n) => { s with entries := s.entries.set k (.occupied (f n)) }
  | _ => s

/-- Test whether a slot holds a node whose `parent` field is set. -/
def parentFlag : Entry → Bool
  | .occupied n => n.parent.isSome
  | .vacant _ => false

/-- Number of live nodes whose `parent` field is set. This is the termination
measure of `mark_or_cut`: `cut` clears exactly one such field before each
recursive call. -/
def Slab.parentCount (s : Slab) : Nat :=
  s.entries.countP parentFlag

/-- Rust struct `FibonacciHeap<T>` with `T = Int`: node arena, root list
`trees`, tracked minimum slot, and the handle-id counter. -/
structure FibonacciHeap where
  nodes : Slab
  trees : List Nat
  min_element : Nat
  id_counter : Nat
deriving DecidableEq

/-- Rust struct `NodeID(usize, usize)`: slot index and generation stamp. -/
structure NodeID where
  slot : Nat
  id : Nat
deriving DecidableEq

/-- Rust `TreeNode::new`. -/
def TreeNode.new (element : Int) (parent : Option Nat) (handle_id : Nat) : TreeNode :=
  { parent := parent, element := element, marked := false, children := [],
    handle_id := handle_id }

/-- Rust `TreeNode::degree`: number of children. -/
def TreeNode.degree (n : TreeNode) : Nat := n.children.length

/-- Rust `FibonacciHeap::new`. -/
def FibonacciHeap.new : FibonacciHeap :=
  { nodes := { entries := [], next := 0 }, trees := [], min_element := 0, id_counter := 0 }

/-- Update one node of the arena in place (a `get_mut` call site). -/
def FibonacciHeap.modifyNode (h : FibonacciHeap) (k : Nat) (f : TreeNode → TreeNode) :
    FibonacciHeap :=
  { h with nodes := h.nodes.modify k f }

/-- Rust `find_minimum`: look up the tracked minimum slot. -/
def FibonacciHeap.find_minimum (h : FibonacciHeap) : Option Int :=
  (h.nodes.get h.min_element).map TreeNode.element

/-- Rust `is_minimum`: the tree's element compares strictly less than the
current tracked minimum (`false` when no minimum is live). -/
def FibonacciHeap.is_minimum (h : FibonacciHeap) (tree : TreeNode) : Bool :=
  match h.find_minimum with
  | some m => tree.element < m
  | none => false

/-- Rust `insert_tree`: record whether the tree beats the current minimum,
insert it into the arena, push the new slot on the root list, and update
`min_element` if it did. -/
def FibonacciHeap.insert_tree (h : FibonacciHeap) (tree : TreeNode) : FibonacciHeap × Nat :=
  let ismin := h.is_minimum tree
  let p := h.nodes.insert tree
  let h1 := { h with nodes := p.1, trees := h.trees ++ [p.2] }
  (if ismin then { h1 with min_element := p.2 } else h1, p.2)

/-- Rust `insert`: bump the id counter and allocate a fresh singleton root. -/
def FibonacciHeap.insert (h : FibonacciHeap) (element : Int) : FibonacciHeap × NodeID :=
  let c := h.id_counter + 1
  let h1 := { h with id_counter := c }
  let r := h1.insert_tree (TreeNode.new element none c)
  (r.1, { slot := r.2, id := c })

/-- Loop body of Rust `merge`: remove each of `b`'s root slots from `b`'s
arena (`none` models the slab panic on a vacant slot) and insert that node —
only that node, not its descendants — into `a`. -/
def mergeGo (a : FibonacciHeap) (bnodes : Slab) : List Nat → Option FibonacciHeap
  | [] => some a
  | tid :: rest =>
    match bnodes.remove tid with
    | none => none
    | some (tree, bnodes1) => mergeGo (a.insert_tree tree).1 bnodes1 rest

/-- Rust `merge`: move `b`'s root nodes into `a`; `b` is consumed. -/
def FibonacciHeap.merge (a b : FibonacciHeap) : Option FibonacciHeap :=
  mergeGo a b.nodes b.trees

/-- Rust `Vec::swap_remove(i)`: overwrite index `i` with the last element,
then drop the last element. -/
def swapRemove (l : List Nat) (i : Nat) : List Nat :=
  (l.set i ((l.getLast?).getD 0)).dropLast

/-- Rust `remove_tree`: find the first root-list index holding `tree_id`
(`none` models the `unwrap` panic when absent), swap-remove it, and remove
the node from the arena. -/
def FibonacciHeap.remove_tree (h : FibonacciHeap) (tid : Nat) :
    Option (TreeNode × FibonacciHeap) :=
  match h.trees.findIdx? (fun t => t == tid) with
  | none => none
  | some i =>
    let trees1 := swapRemove h.trees i
    match h.nodes.remove tid with
    | none => none
    | some (node, nodes1) => some (node, { h with trees := trees1, nodes := nodes1 })

/-- Rust `cut(node_id, parent_id)`: drop `node_id` from the parent's child
list, clear the node's parent reference (its `marked` flag is NOT cleared by
this code), and push the node on the root list. -/
def FibonacciHeap.cut (h : FibonacciHeap) (node_id parent_id : Nat) : FibonacciHeap :=
  let h1 := h.modifyNode parent_id fun n =>
    { n with children := n.children.filter (fun c => c != node_id) }
  let h2 := h1.modifyNode node_id fun n => { n with parent := none }
  { h2 with trees := h2.trees ++ [node_id] }

/-- Result of a fallible, fuelled computation: normal result, Rust panic, or
fuel exhaustion (`spin`, proved unreachable for the fuel the operations pass). -/
inductive PRes (α : Type) where
  | ok : α → PRes α
  | panic : PRes α
  | spin : PRes α
deriving DecidableEq

/-- Rust `mark_or_cut`, with explicit recursion fuel. The recursion climbs the
parent chain; note that the unmarked branch sets `marked` on the parent
without checking whether that parent is a root. -/
def markOrCutF : Nat → FibonacciHeap → Nat → PRes FibonacciHeap
  | 0, _, _ => .spin
  | fuel + 1, h, node_id =>
    match h.nodes.get node_id with
    | none => .panic
    | some node =>
      match node.parent with
      | none => .ok h
      | some parent_id =>
        match h.nodes.get parent_id with
        | none => .panic
        | some parent =>
          if parent.marked then
            markOrCutF fuel (h.cut node_id parent_id) parent_id
          else
            .ok ((h.modifyNode parent_id fun n => { n with marked := true }).cut
                  node_id parent_id)

/-- The consolidation bucket table `HashMap<usize, usize>`, as an association
list from degree to root slot. -/
abbrev DMap := List (Nat × Nat)

/-- HashMap lookup. -/
def dmLookup (dm : DMap) (d : Nat) : Option Nat :=
  (dm.find? (fun p => p.1 == d)).map Prod.snd

/-- HashMap `remove`: drop the entry with the given degree key. -/
def dmErase (dm : DMap) (d : Nat) : DMap :=
  dm.eraseP (fun p => p.1 == d)

/-- Link step of consolidation: append `child_id` to the parent's child list,
then set the child's parent reference. -/
def linkUnder (h : FibonacciHeap) (parent_id child_id : Nat) : FibonacciHeap :=
  (h.modifyNode parent_id fun n => { n with children := n.children ++ [child_id] }).modifyNode
    child_id fun n => { n with parent := some parent_id }

/-- Rust `merge_or_merge_same_degrees_tree`, with explicit recursion fuel.
On a degree collision the root with the strictly smaller element becomes the
parent; on a tie the newly processed root `tid` becomes the parent. The
surviving root is then retried against the table, whose colliding entry has
been removed. -/
def moF : Nat → FibonacciHeap → Nat → DMap → PRes (FibonacciHeap × DMap)
  | 0, _, _, _ => .spin
  | fuel + 1, h, tid, dm =>
    match h.nodes.get tid with
    | none => .panic
    | some t =>
      match dmLookup dm t.degree with
      | none => .ok (h, dm ++ [(t.degree, tid)])
      | some mid =>
        let dm1 := dmErase dm t.degree
        match h.nodes.get mid with
        | none => .panic
        | some m =>
          if m.element < t.element then
            moF fuel (linkUnder h mid tid) mid dm1
          else
            moF fuel (linkUnder h tid mid) tid dm1

/-- The consolidation loop of `extract_minimum`: fold every root of the
snapshot `self.trees.clone()` through `merge_or_merge_same_degrees_tree`.
Each call receives fuel `dm.length + 1`, which `recursive_helpers_terminate`
shows can never run out. -/
def consolidate : FibonacciHeap → List Nat → DMap → PRes (FibonacciHeap × DMap)
  | h, [], dm => .ok (h, dm)
  | h, tid :: rest, dm =>
    match moF (dm.length + 1) h tid dm with
    | .ok (h1, dm1) => consolidate h1 rest dm1
    | .panic => .panic
    | .spin => .spin

/-- Rust `Iterator::min_by_key` over `(tree_id, node)` pairs, keyed by degree:
the first pair of minimal degree wins. -/
def minByDegreeGo (best : Nat × TreeNode) : List (Nat × TreeNode) → Nat
  | [] => best.1
  | p :: rest =>
    if p.2.degree < best.2.degree then minByDegreeGo p rest else minByDegreeGo best rest

/-- Result of `min_by_key`, `none` on an empty list (the final `unwrap`). -/
def minByDegree : List (Nat × TreeNode) → Option Nat
  | [] => none
  | p :: rest => some (minByDegreeGo p rest)

/-- Third phase of `extract_minimum`: pair each remaining root with its node
(`none` models the `unwrap` panic on a dead slot, or the final `unwrap` on an
empty root list) and take the root of minimal DEGREE — the code runs
`min_by_key(|(_, tree)| tree.degree())`, although its own comment says it
finds the minimum. -/
def minRoot (h : FibonacciHeap) : Option Nat :=
  match h.trees.mapM (fun tid => (h.nodes.get tid).map (fun n => (tid, n))) with
  | none => none
  | some pairs => minByDegree pairs

/-- Rust `extract_minimum`: remove the tracked minimum root, push its children
on the root list unchanged (their `parent` and `marked` fields are NOT
cleared by this code), consolidate, rebuild `trees` from the bucket table,
and re-point `min_element` via `minRoot`. -/
def FibonacciHeap.extract_minimum (h : FibonacciHeap) : PRes (Option Int × FibonacciHeap) :=
  if h.trees.isEmpty then .ok (none, h)
  else
    match h.remove_tree h.min_element with
    | none => .panic
    | some (removed, h1) =>
      let h2 := { h1 with trees := h1.trees ++ removed.children }
      if h2.trees.isEmpty then .ok (some removed.element, h2)
      else
        match consolidate h2 h2.trees [] with
        | .ok (h3, dm) =>
          let h4 := { h3 with trees := dm.map Prod.snd }
          match minRoot h4 with
          | none => .panic
          | some mid => .ok (some removed.element, { h4 with min_element := mid })
        | .panic => .panic
        | .spin => .spin

/-- Rust `decrease_key`. `none` models a panic; the stale-handle and
key-increase guards return the heap unchanged. Note the non-root branch whose
heap order is still satisfied returns WITHOUT updating the element (lib.rs
lines 157-160 return before the line 177 update). -/
def FibonacciHeap.decrease_key (h : FibonacciHeap) (handle : NodeID) (new_element : Int) :
    Option FibonacciHeap :=
  match h.nodes.get handle.slot with
  | none => some h
  | some node =>
    if node.handle_id ≠ handle.id then some h
    else if node.element < new_element then some h
    else
      match node.parent with
      | none =>
        let h1 := h.modifyNode handle.slot fun n => { n with element := new_element }
        match h1.nodes.get handle.slot with
        | none => none
        | some n1 =>
          some (if h1.is_minimum n1 then { h1 with min_element := handle.slot } else h1)
      | some parent_id =>
        match h.nodes.get parent_id with
        | none => none
        | some parent =>
          if parent.element < new_element then some h
          else
            match markOrCutF (h.nodes.parentCount + 1) h handle.slot with
            | .ok h1 =>
              let h2 := h1.modifyNode handle.slot fun n => { n with element := new_element }
              match h2.nodes.get handle.slot with
              | none => none
              | some n2 =>
                some (if h2.is_minimum n2 then { h2 with min_element := handle.slot } else h2)
            | .panic => none
            | .spin => none

/-- Rust `delete`: declared in the `Heap` trait (src/src/heap.rs) as taking an
ELEMENT value, not a handle, and left `unimplemented!()` in lib.rs, so every
call panics; modelled as `none`. -/
def FibonacciHeap.delete (_h : FibonacciHeap) (_element : Int) : Option FibonacciHeap :=
  none

/-- Value returned by `extract_minimum`; `none` when the heap is empty or the
call panics. -/
def extractValue (h : FibonacciHeap) : Option Int :=
  match h.extract_minimum with
  | .ok (v, _) => v
  | _ => none

/-- Heap state after `extract_minimum` (the input heap itself on a panic). -/
def extractHeap (h : FibonacciHeap) : FibonacciHeap :=
  match h.extract_minimum with
  | .ok (_, h1) => h1
  | _ => h

/-- Heap state after `decrease_key` (the input heap itself on a panic). -/
def dkHeap (h : FibonacciHeap) (handle : NodeID) (v : Int) : FibonacciHeap :=
  (h.decrease_key handle v).getD h

/-- Elements of all live (occupied) slots, in slot order. -/
def liveElements (h : FibonacciHeap) : List Int :=
  h.nodes.entries.filterMap fun e =>
    match e with
    | .occupied n => some n.element
    | .vacant _ => none

/-- Number of live nodes in the arena. -/
def liveCount (h : FibonacciHeap) : Nat := (liveElements h).length

/-- Heap after inserting 5, 3, 4, 1 into a fresh heap. -/
def hC1 : FibonacciHeap :=
  ((((FibonacciHeap.new.insert 5).1.insert 3).1.insert 4).1.insert 1).1

/-- hC1 after one extraction (which returns 1). -/
def hC1a : FibonacciHeap := extractHeap hC1

/-- hC1 after two extractions (the second returns 4, although 3 is live). -/
def hC1b : FibonacciHeap := extractHeap hC1a

/-- hC1 after three extractions. -/
def hC1c : FibonacciHeap := extractHeap hC1b

/-- Heap after inserting 1, 2, 3 into a fresh heap. -/
def hA : FibonacciHeap :=
  (((FibonacciHeap.new.insert 1).1.insert 2).1.insert 3).1

/-- hA after one extraction: slot 1 (element 2) is the root, slot 2
(element 3) its child. -/
def hA1 : FibonacciHeap := extractHeap hA

/-- hA after two extractions: slot 2 (element 3) sits in the root list with a
dangling parent reference to the freed slot 1. -/
def hA2 : FibonacciHeap := extractHeap hA1

/-- Heap after inserting 0, 1, 3 into a fresh heap. -/
def hB : FibonacciHeap :=
  (((FibonacciHeap.new.insert 0).1.insert 1).1.insert 3).1

/-- hB after one extraction: slot 1 (element 1) is the root, slot 2
(element 3) its child. -/
def hB1 : FibonacciHeap := extractHeap hB

/-- A root node with element 5 and no children (generation 1). -/
def c9_nodeA : TreeNode :=
  { parent := none, element := 5, marked := false, children := [], handle_id := 1 }

/-- A root node with element 5 and no children (generation 2). -/
def c9_nodeB : TreeNode :=
  { parent := none, element := 5, marked := false, children := [], handle_id := 2 }

/-- A heap holding two equal-element degree-0 roots, for the consolidation
tie-break instance. -/
def c9_heap : FibonacciHeap :=
  { nodes := { entries := [.occupied c9_nodeA, .occupied c9_nodeB], next := 2 },
    trees := [0, 1], min_element := 0, id_counter := 2 }

/-- Heap after inserting 5 into a fresh heap; the insert returns the handle
with slot 0 and generation stamp 1. -/
def c8a : FibonacciHeap := (FibonacciHeap.new.insert 5).1

/-- c8a after extracting its only element: slot 0 is freed, so the handle
with slot 0 and stamp 1 is now stale. -/
def c8a1 : FibonacciHeap := extractHeap c8a

/-- A second, independent heap after inserting 7: its per-heap id counter also
starts at 0, so its node carries the same generation stamp 1. -/
def c8b : FibonacciHeap := (FibonacciHeap.new.insert 7).1

/-- The merge of c8a1 and c8b: the merged-in node (element 7, stamp 1) reuses
the freed slot 0 of c8a1's arena. -/
def c8m : FibonacciHeap := (c8a1.merge c8b).getD FibonacciHeap.new

/-- Writing a list cell that exists yields the written value at that index. -/
theorem get_set_same {α : Type} :
    ∀ (l : List α) (k : Nat) (a e : α), l[k]? = some a → (l.set k e)[k]? = some e := by
  intro l
  induction l with
  | nil => intro k a e hk; simp at hk
  | cons b t ih =>
    intro k a e hk
    cases k with
    | zero => simp
    | succ k =>
      have hk2 : t[k]? = some a := by simpa using hk
      simpa using ih k a e hk2

/-- Writing a list cell leaves the other indices unchanged. -/
theorem get_set_diff {α : Type} :
    ∀ (l : List α) (k j : Nat) (e : α), j ≠ k → (l.set k e)[j]? = l[j]? := by
  intro l
  induction l with
  | nil => intro k j e _; simp
  | cons b t ih =>
    intro k j e hj
    cases k with
    | zero =>
      cases j with
      | zero => exact absurd rfl hj
      | succ j => simp
    | succ k =>
      cases j with
      | zero => simp
      | succ j =>
        have := ih k j e (fun hc => hj (by rw [hc]))
        simpa using this

/-- Effect of overwriting one existing cell on a `countP`. -/
theorem countP_set_get {α : Type} (p : α → Bool) :
    ∀ (l : List α) (k : Nat) (a e : α), l[k]? = some a →
      (l.set k e).countP p + (p a).toNat = l.countP p + (p e).toNat := by
  intro l
  induction l with
  | nil => intro k a e hk; simp at hk
  | cons b t ih =>
    intro k a e hk
    cases k with
    | zero =>
      have hb : b = a := by simpa using hk
      subst hb
      simp only [List.set_cons_zero, List.countP_cons]
      cases hpb : p b <;> cases hpe : p e <;> simp [hpb, hpe]
    | succ k =>
      have hk2 : t[k]? = some a := by simpa using hk
      have := ih k a e hk2
      simp only [List.set_cons_succ, List.countP_cons]
      cases hpb : p b <;> simp [hpb] <;> omega

/-- Reading through `Slab.modify`: the modified key reads the updated node,
all other keys read the old slab. -/
theorem Slab.get_modify (s : Slab) (k : Nat) (f : TreeNode → TreeNode) (j : Nat) :
    (s.modify k f).get j = if j = k then (s.get j).map f else s.get j := by
  unfold Slab.modify
  cases hk : s.entries[k]? with
  | none =>
    by_cases hj : j = k
    · subst hj
      rw [if_pos rfl]
      unfold Slab.get
      rw [hk]
      rfl
    · rw [if_neg hj]
  | some e =>
    cases e with
    | vacant nx =>
      by_cases hj : j = k
      · subst hj
        rw [if_pos rfl]
        unfold Slab.get
        rw [hk]
        rfl
      · rw [if_neg hj]
    | occupied n =>
      by_cases hj : j = k
      · subst hj
        rw [if_pos rfl]
        unfold Slab.get
        rw [hk, get_set_same s.entries j (Entry.occupied n) (Entry.occupied (f n)) hk]
        rfl
      · rw [if_neg hj]
        unfold Slab.get
        rw [get_set_diff s.entries k j (Entry.occupied (f n)) hj]

/-- A `Slab.get` success, read back as the underlying occupied entry. -/
theorem Slab.get_eq_entry (s : Slab) (k : Nat) (n : TreeNode) (h : s.get k = some n) :
    s.entries[k]? = some (Entry.occupied n) := by
  unfold Slab.get at h
  cases hq : s.entries[k]? with
  | none => rw [hq] at h; simp at h
  | some e =>
    cases e with
    | vacant nx => rw [hq] at h; simp at h
    | occupied m => rw [hq] at h; simp at h; rw [h]

/-- A node update that keeps the presence of the `parent` field keeps
`parentCount`. -/
theorem parentCount_modify_preserve (s : Slab) (k : Nat) (f : TreeNode → TreeNode)
    (hf : ∀ n : TreeNode, ((f n).parent).isSome = (n.parent).isSome) :
    (s.modify k f).parentCount = s.parentCount := by
  unfold Slab.modify
  cases hk : s.entries[k]? with
  | none => rfl
  | some e =>
    cases e with
    | vacant nx => rfl
    | occupied n =>
      have h := countP_set_get (p := parentFlag) s.entries k
        (Entry.occupied n) (Entry.occupied (f n)) hk
      have hq : parentFlag (Entry.occupied (f n)) = parentFlag (Entry.occupied n) := hf n
      rw [hq] at h
      show List.countP parentFlag (s.entries.set k (Entry.occupied (f n))) =
        List.countP parentFlag s.entries
      omega

/-- Clearing the `parent` field of a live node whose parent is set decreases
`parentCount` by one. -/
theorem parentCount_modify_clear (s : Slab) (k : Nat) (n : TreeNode)
    (hk : s.entries[k]? = some (Entry.occupied n)) (hp : (n.parent).isSome = true) :
    (s.modify k fun m => { m with parent := none }).parentCount + 1 = s.parentCount := by
  unfold Slab.modify
  cases hq : s.entries[k]? with
  | none => rw [hq] at hk; simp at hk
  | some e =>
    cases e with
    | vacant nx => rw [hq] at hk; simp at hk
    | occupied m =>
      rw [hq] at hk
      have hm : m = n := by simpa using hk
      subst hm
      have h := countP_set_get (p := parentFlag) s.entries k
        (Entry.occupied m) (Entry.occupied { m with parent := none }) hq
      have h1 : parentFlag (Entry.occupied m) = true := hp
      have h2 : parentFlag (Entry.occupied { m with parent := none }) = false := rfl
      rw [h1, h2] at h
      show List.countP parentFlag
          (s.entries.set k (Entry.occupied { m with parent := none })) + 1 =
        List.countP parentFlag s.entries
      simp only [Bool.toNat_true, Bool.toNat_false] at h
      omega

/-- Rust `cut` clears exactly one set `parent` field, so it decreases
`parentCount` by one. -/
theorem parentCount_cut (h : FibonacciHeap) (nid pid : Nat) (node : TreeNode)
    (hn : h.nodes.get nid = some node) (hp : (node.parent).isSome = true) :
    ((h.cut nid pid).nodes.parentCount) + 1 = h.nodes.parentCount := by
  have h1 : (h.nodes.modify pid fun n =>
      { n with children := n.children.filter (fun c => c != nid) }).parentCount
      = h.nodes.parentCount :=
    parentCount_modify_preserve _ _ _ (fun _ => rfl)
  have hget := Slab.get_modify h.nodes pid
    (fun n => { n with children := n.children.filter (fun c => c != nid) }) nid
  show ((h.nodes.modify pid fun n =>
      { n with children := n.children.filter (fun c => c != nid) }).modify nid
        fun n => { n with parent := none }).parentCount + 1 = h.nodes.parentCount
  by_cases hnp : nid = pid
  · rw [if_pos hnp, hn] at hget
    have hk2 := Slab.get_eq_entry _ nid _ hget
    have h3 := parentCount_modify_clear _ nid _ hk2 hp
    rw [← h1]
    exact h3
  · rw [if_neg hnp, hn] at hget
    have hk2 := Slab.get_eq_entry _ nid _ hget
    have h3 := parentCount_modify_clear _ nid _ hk2 hp
    rw [← h1]
    exact h3

/-- The fuelled `mark_or_cut` never exhausts fuel above `parentCount`: each
recursive call follows a `cut` that clears one set `parent` field. -/
theorem markOrCutF_no_spin :
    ∀ (fuel : Nat) (h : FibonacciHeap) (nid : Nat),
      h.nodes.parentCount < fuel → markOrCutF fuel h nid ≠ .spin := by
  intro fuel
  induction fuel with
  | zero => intro h nid hlt; exact absurd hlt (Nat.not_lt_zero _)
  | succ n ih =>
    intro h nid hlt
    cases hg : h.nodes.get nid with
    | none => simp [markOrCutF, hg]
    | some node =>
      cases hpar : node.parent with
      | none => simp [markOrCutF, hg, hpar]
      | some pid =>
        cases hgp : h.nodes.get pid with
        | none => simp [markOrCutF, hg, hpar, hgp]
        | some parent =>
          by_cases hm : parent.marked
          · have hdec := parentCount_cut h nid pid node hg (by rw [hpar]; rfl)
            have hlt2 : (h.cut nid pid).nodes.parentCount < n := by omega
            simpa [markOrCutF, hg, hpar, hgp, hm] using ih (h.cut nid pid) pid hlt2
          · simp [markOrCutF, hg, hpar, hgp, hm]

/-- Removing a key that a lookup found shortens the bucket table by one. -/
theorem dmErase_length :
    ∀ (dm : DMap) (d mid : Nat), dmLookup dm d = some mid →
      (dmErase dm d).length + 1 = dm.length := by
  intro dm
  induction dm with
  | nil => intro d mid hl; simp [dmLookup] at hl
  | cons p t ih =>
    intro d mid hl
    by_cases hpd : (p.1 == d) = true
    · simp [dmErase, List.eraseP_cons, hpd]
    · have hl2 : dmLookup t d = some mid := by
        simpa [dmLookup, List.find?, hpd] using hl
      have := ih d mid hl2
      simp [dmErase, List.eraseP_cons, hpd] at this ⊢
      omega

/-- The fuelled `merge_or_merge_same_degrees_tree` never exhausts fuel above
the bucket-table size: each recursive call follows the removal of the
colliding table entry. -/
theorem moF_no_spin :
    ∀ (fuel : Nat) (h : FibonacciHeap) (tid : Nat) (dm : DMap),
      dm.length < fuel → moF fuel h tid dm ≠ .spin := by
  intro fuel
  induction fuel with
  | zero => intro h tid dm hlt; exact absurd hlt (Nat.not_lt_zero _)
  | succ n ih =>
    intro h tid dm hlt
    cases hg : h.nodes.get tid with
    | none => simp [moF, hg]
    | some t =>
      cases hl : dmLookup dm t.degree with
      | none => simp [moF, hg, hl]
      | some mid =>
        have hlen := dmErase_length dm t.degree mid hl
        have hlt2 : (dmErase dm t.degree).length < n := by omega
        cases hgm : h.nodes.get mid with
        | none => simp [moF, hg, hl, hgm]
        | some m =>
          by_cases hcmp : m.element < t.element
          · simpa [moF, hg, hl, hgm, hcmp] using ih (linkUnder h mid tid) mid _ hlt2
          · simpa [moF, hg, hl, hgm, hcmp] using ih (linkUnder h tid mid) tid _ hlt2

/-- C1 (code bug): inserting 5, 3, 4, 1 and extracting all four elements
returns 1, 4, 3, 5 — not in non-decreasing order. After its consolidation,
`extract_minimum` sets the tracked minimum with
`min_by_key(|(_, tree)| tree.degree())`, i.e. by smallest DEGREE, not by
smallest element, so the second extraction returns 4 while 3 is still live. -/
theorem extract_order_not_sorted :
    extractValue hC1 = some 1 ∧ extractValue hC1a = some 4 ∧
      extractValue hC1b = some 3 ∧ extractValue hC1c = some 5 ∧
      3 ∈ liveElements hC1a := by decide

/-- C2 (code bug): after inserting 1, 2, 3 and extracting twice, the promoted
child (slot 2) sits in the root list with its `parent` reference still set to
the freed slot 1 — `extract_minimum` pushes the removed root's children on
the root list without clearing `parent` (or `marked`). -/
theorem promoted_child_keeps_parent :
    2 ∈ hA2.trees ∧ (hA2.nodes.get 2).map TreeNode.parent = some (some 1) ∧
      hA2.nodes.get 1 = none := by decide

/-- C3 (code bug): in hB1 the node in slot 2 (element 3) is a child of the
root (element 1). `decrease_key` to 2 keeps heap order (2 is at least the
parent's 1), yet the code returns before the value update, leaving the whole
heap — including the stored element 3 — unchanged, instead of storing 2. -/
theorem decrease_key_in_order_skips_update :
    (hB1.nodes.get 2).map TreeNode.element = some 3 ∧
      hB1.decrease_key ⟨2, 3⟩ 2 = some hB1 := by decide

/-- C4 (code bug): hA1 owns two live nodes (elements 2 and 3, where 3 is a
child of 2), but merging it into an empty heap moves only the root: the
result owns a single live node with element 2, not count 0 + 2 = 2, and the
node holding 3 is lost. -/
theorem merge_loses_non_root_nodes :
    liveCount hA1 = 2 ∧
      (FibonacciHeap.new.merge hA1).map liveCount = some 1 ∧
      (FibonacciHeap.new.merge hA1).map liveElements = some [2] := by decide

/-- C5 (code bug): in hA1 the root (slot 1, element 2) has the child slot 2
(element 3). Decreasing the child's key to 1 violates heap order, and
`mark_or_cut` sets `marked := true` on the parent without checking that the
parent is a root; afterwards slot 1 is a parentless node on the root list
with `marked = true`. -/
theorem cascading_cut_marks_root :
    1 ∈ (dkHeap hA1 ⟨2, 3⟩ 1).trees ∧
      ((dkHeap hA1 ⟨2, 3⟩ 1).nodes.get 1).map TreeNode.marked = some true ∧
      ((dkHeap hA1 ⟨2, 3⟩ 1).nodes.get 1).map TreeNode.parent = some none := by decide

/-- C6 (code bug): in the reachable state hA2 (insert 1, 2, 3; extract twice)
the live root in slot 2 still has `parent = some 1` although slot 1 was
freed, so `decrease_key` with its live handle and the smaller value 0 reaches
`self.nodes.get(parent_id).unwrap()` on a vacant slot and panics (`none`). -/
theorem decrease_key_panics_on_dangling_parent :
    hA2.decrease_key ⟨2, 3⟩ 0 = none := by decide

/-- C7 (counterexample): `delete` is not a benign no-op on a stale handle; in
the code it takes an element value and is `unimplemented!()`, so on the empty
heap (where any handle is stale) the call panics instead of returning the
heap unchanged. -/
theorem delete_not_noop :
    ¬ FibonacciHeap.new.delete 0 = some FibonacciHeap.new := by decide

/-- C7 (amended): as declared in the `Heap` trait, `delete` takes an element
value rather than a handle, and its body is `unimplemented!()`: every call
panics and nothing is ever removed. -/
theorem delete_always_panics :
    ∀ (h : FibonacciHeap) (e : Int), h.delete e = none :=
  fun _ _ => rfl

/-- C8 (counterexample): the generation stamp does not detect every slot
reuse, because id counters are per heap. Inserting 5 into heap a issues the
handle (slot 0, stamp 1); after extracting it the handle is stale. A second
heap b, whose own counter also starts at 0, holds 7 under the same stamp 1,
and merging b into a moves that node into the freed slot 0. The stale handle
then passes every guard of `decrease_key`, which mutates the unrelated
element 7 to 3 instead of leaving the heap state entirely unchanged. -/
theorem decrease_key_stale_handle_mutates_reused_slot :
    (FibonacciHeap.new.insert 5).2 = (⟨0, 1⟩ : NodeID) ∧
      extractValue c8a = some 5 ∧
      c8a1.nodes.get 0 = none ∧
      c8a1.merge c8b = some c8m ∧
      (c8m.nodes.get 0).map TreeNode.handle_id = some 1 ∧
      (c8m.nodes.get 0).map TreeNode.element = some 7 ∧
      (c8m.decrease_key ⟨0, 1⟩ 3).map (fun h => (h.nodes.get 0).map TreeNode.element)
        = some (some 3) ∧
      ¬ c8m.decrease_key ⟨0, 1⟩ 3 = some c8m := by decide

/-- C8 (amended): `decrease_key` returns the heap fully unchanged whenever
the handle's slot is vacant, or the occupant's generation stamp differs from
the handle's, or the new value is strictly greater than the node's current
element; a slot reuse is only detected — and only then is the handle treated
as stale — when the reusing node's stamp actually differs from the handle's,
which a merge of independently stamped heaps can defeat. -/
theorem decrease_key_stale_or_greater_is_noop (h : FibonacciHeap) (hd : NodeID) (v : Int)
    (hcond : h.nodes.get hd.slot = none ∨
      ∃ n, h.nodes.get hd.slot = some n ∧ (n.handle_id ≠ hd.id ∨ n.element < v)) :
    h.decrease_key hd v = some h := by
  unfold FibonacciHeap.decrease_key
  rcases hcond with hn | ⟨n, hn, hc⟩
  · rw [hn]
  · rw [hn]
    by_cases hid : n.handle_id = hd.id
    · have hel : n.element < v := by
        rcases hc with hc | hc
        · exact absurd hid hc
        · exact hc
      simp [hid, hel]
    · simp [hid]

/-- Witness for C8 at a concrete input: on the empty heap every handle's slot
is vacant, and `decrease_key` returns the heap unchanged. -/
theorem decrease_key_stale_or_greater_is_noop_witness :
    FibonacciHeap.new.decrease_key ⟨0, 1⟩ 0 = some FibonacciHeap.new :=
  decrease_key_stale_or_greater_is_noop FibonacciHeap.new ⟨0, 1⟩ 0 (Or.inl rfl)

/-- C9 (confirmed): when the root `tid` being processed collides in the
bucket table with the resident root `mid` and their elements compare equal,
the newly processed `tid` becomes the parent: `mid` is appended to `tid`'s
children and gets `parent = some tid`, and consolidation retries `tid` —
whose degree is now one higher — against the table with the colliding entry
removed, recursively. -/
theorem consolidation_equal_tie_newcomer_becomes_parent
    (fuel : Nat) (h : FibonacciHeap) (tid mid : Nat) (dm : DMap) (t m : TreeNode)
    (htid : h.nodes.get tid = some t)
    (hlook : dmLookup dm t.degree = some mid)
    (hmid : h.nodes.get mid = some m)
    (heq : m.element = t.element)
    (hne : mid ≠ tid) :
    moF (fuel + 1) h tid dm = moF fuel (linkUnder h tid mid) tid (dmErase dm t.degree) ∧
      ((linkUnder h tid mid).nodes.get mid).map TreeNode.parent = some (some tid) ∧
      ((linkUnder h tid mid).nodes.get tid).map TreeNode.degree = some (t.degree + 1) := by
  have hnlt : ¬ m.element < t.element := by rw [heq]; exact lt_irrefl _
  refine ⟨?_, ?_, ?_⟩
  · simp [moF, htid, hlook, hmid, hnlt]
  · unfold linkUnder FibonacciHeap.modifyNode
    rw [Slab.get_modify]
    rw [if_pos rfl]
    rw [Slab.get_modify]
    rw [if_neg hne, hmid]
    rfl
  · unfold linkUnder FibonacciHeap.modifyNode
    rw [Slab.get_modify]
    rw [if_neg (fun hc => hne (hc.symm))]
    rw [Slab.get_modify]
    rw [if_pos rfl, htid]
    simp [TreeNode.degree]

/-- Witness for C9 at a concrete input: two equal-element degree-0 roots,
with slot 1 resident in the bucket table and slot 0 being processed. -/
theorem consolidation_equal_tie_newcomer_becomes_parent_witness :
    moF 1 c9_heap 0 [(0, 1)] =
        moF 0 (linkUnder c9_heap 0 1) 0 (dmErase [(0, 1)] c9_nodeA.degree) ∧
      ((linkUnder c9_heap 0 1).nodes.get 1).map TreeNode.parent = some (some 0) ∧
      ((linkUnder c9_heap 0 1).nodes.get 0).map TreeNode.degree = some (c9_nodeA.degree + 1) :=
  consolidation_equal_tie_newcomer_becomes_parent 0 c9_heap 0 1 [(0, 1)] c9_nodeA c9_nodeB
    rfl rfl rfl rfl (by decide)

/-- C10 (confirmed): both recursive helpers terminate on every heap state.
`merge_or_merge_same_degrees_tree` recurses only after removing the colliding
entry from the bucket table, so table size bounds the recursion;
`mark_or_cut` recurses only after `cut` clears one set `parent` field, so the
number of set parent fields bounds the recursion. With fuel above those
bounds — exactly what `consolidate` and `decrease_key` pass — the fuelled
embeddings never exhaust fuel. -/
theorem recursive_helpers_terminate :
    (∀ (fuel : Nat) (h : FibonacciHeap) (tid : Nat) (dm : DMap),
        dm.length < fuel → moF fuel h tid dm ≠ .spin) ∧
      (∀ (fuel : Nat) (h : FibonacciHeap) (nid : Nat),
        h.nodes.parentCount < fuel → markOrCutF fuel h nid ≠ .spin) :=
  ⟨moF_no_spin, markOrCutF_no_spin⟩

/-- Witness for C10 at a concrete input: fuel 1 suffices on the empty heap. -/
theorem recursive_helpers_terminate_witness :
    moF 1 FibonacciHeap.new 0 [] ≠ .spin ∧ markOrCutF 1 FibonacciHeap.new 0 ≠ .spin :=
  ⟨recursive_helpers_terminate.1 1 FibonacciHeap.new 0 [] (by decide),
    recursive_helpers_terminate.2 1 FibonacciHeap.new 0 (by decide)⟩

end FibHeap
